import Mathlib

/-!
Verification of the playa-ai audio capture and playback core.

This file gives a shallow embedding, in Lean, of the parts of the
repository that the specification talks about:

* the frame slicer `MicrophoneObservable.emitVadFrames`
  (src/unnamed/part_002, lines 175-182),
* the endpointing pipeline `MicrophoneObservable.buildEndObservable`
  (src/unnamed/part_002, lines 151-169),
* the idempotent teardown `MicrophoneObservable.endCapture` and the
  process lifecycle handlers (src/unnamed/part_002, lines 187-213),
* the subscriber data handler (src/unnamed/part_002, lines 242-245)
  combined with the skip-leading-audio path of `listen`
  (src/src/speech/listen.ts, lines 56-67),
* the mono to stereo duplication `SpeakerStream.toStereo` and
  `SpeakerStream._write` (src/src/io/hinge.ts, lines 111-142).

Byte buffers are modelled as `List Nat` whose elements are byte values
(below 256 where it matters).  Time is modelled in whole milliseconds as
`Nat`.  Fallible operations return `Option`.
-/

namespace Playa

/-! ### Framer: MicrophoneObservable.emitVadFrames

The TypeScript source (src/unnamed/part_002, lines 175-182):

    const VAD_FRAME_BYTES = 640; // 20ms at 16kHz, 16-bit mono
    this.audioBuffer = Buffer.concat([this.audioBuffer, chunk]);
    while (this.audioBuffer.length >= VAD_FRAME_BYTES) {
      onFrame(this.audioBuffer.subarray(0, VAD_FRAME_BYTES));
      this.audioBuffer = this.audioBuffer.subarray(VAD_FRAME_BYTES);
    }

`sliceFrames n buf` is the while loop: it returns the list of emitted
frames, in emission order, together with the final remainder buffer. -/

def SAMPLE_RATE : Nat := 16000

def FRAME_DURATION_MS : Nat := 20

def VAD_FRAME_BYTES : Nat := 640

/-- The while loop of `emitVadFrames`: repeatedly slice a frame of `n`
bytes off the front of `buf` while at least `n` bytes remain. -/
def sliceFrames (n : Nat) (buf : List Nat) : List (List Nat) × List Nat :=
  if _h : 0 < n ∧ n ≤ buf.length then
    (buf.take n :: (sliceFrames n (buf.drop n)).1, (sliceFrames n (buf.drop n)).2)
  else
    ([], buf)
termination_by buf.length
decreasing_by
  all_goals simp only [List.length_drop]
  all_goals omega

/-- Embedding of `emitVadFrames`: with current remainder `audioBuffer` and incoming
`chunk`: concatenate, then run the slicing loop.  Returns the emitted
frames and the new remainder. -/
def emitVadFrames (audioBuffer chunk : List Nat) : List (List Nat) × List Nat :=
  sliceFrames VAD_FRAME_BYTES (audioBuffer ++ chunk)

/-- A whole session of `emitVadFrames` calls: push the chunks one at a
time, threading the remainder, collecting all emitted frames in order. -/
def processChunks (audioBuffer : List Nat) : List (List Nat) → List (List Nat) × List Nat
  | [] => ([], audioBuffer)
  | c :: cs =>
    let p := emitVadFrames audioBuffer c
    let q := processChunks p.2 cs
    (p.1 ++ q.1, q.2)

/-! ### Endpoint machine: MicrophoneObservable.buildEndObservable

The TypeScript source (src/unnamed/part_002, lines 151-169):

    const frames$ = this.framesSubject.asObservable();
    const speech$ = frames$.pipe(
      map((frame) => this.vad.process(frame)),
      filter(Boolean),
    );
    const firstSpeech$ = speech$.pipe(take(1));
    const endOnInitialSilence$ = timer(this.config.maxInitialSilenceMs).pipe(
      takeUntil(firstSpeech$),
      take(1),
    );
    const endOnTrailingSilence$ = firstSpeech$.pipe(
      switchMap(() =>
        speech$.pipe(debounceTime(this.config.maxTrailingSilenceMs), take(1)),
      ),
    );
    return merge(endOnInitialSilence$, endOnTrailingSilence$).pipe(take(1));

The input of the pipeline is the sequence of classified frames in the
order in which `framesSubject.next` delivers them; we model it as a
list of frames carrying an arrival timestamp in milliseconds (time 0 is
the subscription instant, when `timer` starts) and the boolean returned
by `vad.process`.  The VAD is the pluggable external capability, so the
classification is taken as an attribute of the frame.  Races in which a
timer is due at the exact millisecond at which a frame arrives are
resolved in favour of the already scheduled timer; the claims only
constrain strict orderings, so this convention is not load bearing.

One consequence of the reactive implementation is modelled exactly as
the RxJS semantics dictate.  `framesSubject` is a hot `Subject`, and
`Subject.next` iterates over a snapshot of the observers that were
subscribed when the delivery started.  The inner
`speech$.pipe(debounceTime(...), take(1))` of `endOnTrailingSilence$`
is subscribed by `switchMap` only while the first speech frame is being
delivered through `firstSpeech$`, so that inner subscription is not in
the snapshot and never receives the first speech frame itself: the
debounce therefore only sees speech frames that arrive strictly after
the first one.  `debounceTime` emits nothing at all until its source
has emitted at least once. -/

structure MicrophoneConfig where
  maxInitialSilenceMs : Nat
  maxTrailingSilenceMs : Nat
deriving DecidableEq

/-- Source constant `DEFAULT_CONFIG` (src/unnamed/part_002, lines 122-125). -/
def DEFAULT_CONFIG : MicrophoneConfig :=
  { maxInitialSilenceMs := 2000, maxTrailingSilenceMs := 800 }

/-- One VAD frame as delivered by `framesSubject.next`, with its arrival
time in milliseconds since subscription and its VAD classification. -/
structure ClassifiedFrame where
  t : Nat
  isSpeech : Bool
deriving DecidableEq

/-- The reason carried by the single end event. -/
inductive EndReason where
  | initialSilence
  | trailingSilence
deriving DecidableEq

/-- Arrival times of the frames that pass `filter(Boolean)`, in delivery
order (the `speech$` stream). -/
def speechTimes (frames : List ClassifiedFrame) : List Nat :=
  (frames.filter (fun f => f.isSpeech)).map (fun f => f.t)

/-- Embedding of `debounceTime(d)` followed by `take(1)` on an event stream given by
its (nondecreasing) list of arrival times: each event restarts a timer
of `d` ms; the first time the timer is allowed to elapse, the debounced
stream emits, `d` ms after the event that last restarted the timer.  If
the stream never emits, the debounced stream never emits. -/
def debounceFire (d : Nat) : List Nat → Option Nat
  | [] => none
  | [s] => some (s + d)
  | s :: s2 :: rest => if s2 ≤ s + d then debounceFire d (s2 :: rest) else some (s + d)

/-- The single emission of `buildEndObservable`, as reason and time.

* If no speech frame arrives strictly before `maxInitialSilenceMs`, the
  `timer` of `endOnInitialSilence$` fires first: the merge emits
  `initialSilence` at `maxInitialSilenceMs` and `take(1)` discards
  everything later.
* If the first speech frame arrives strictly before
  `maxInitialSilenceMs`, `takeUntil(firstSpeech$)` cancels the timer,
  and `endOnTrailingSilence$` debounces the speech frames that arrive
  after the first one (see the section comment: the inner subscription
  created by `switchMap` misses the first speech frame itself). -/
def endObservableFire (cfg : MicrophoneConfig) (frames : List ClassifiedFrame) :
    Option (EndReason × Nat) :=
  match speechTimes frames with
  | [] => some (EndReason.initialSilence, cfg.maxInitialSilenceMs)
  | s1 :: rest =>
    if s1 < cfg.maxInitialSilenceMs then
      (debounceFire cfg.maxTrailingSilenceMs rest).map
        (fun t => (EndReason.trailingSilence, t))
    else
      some (EndReason.initialSilence, cfg.maxInitialSilenceMs)

/-! ### Capture session lifecycle: endCapture and the process handlers

The TypeScript source (src/unnamed/part_002):

    private endCapture(subscriber: Subscriber<Buffer>): void {   // lines 187-197
      if (this.isCompleted) return;
      this.isCompleted = true;
      try {
        this.arecordProcess.kill();
      } catch (_) {
        // ignore
      }
      this.arecordProcess.removeAllListeners();
      subscriber.complete();
    }

    private attachProcessLifecycle(subscriber: Subscriber<Buffer>): void {  // lines 209-213
      this.arecordProcess.stdout.once("end", () => this.endCapture(subscriber));
      this.arecordProcess.once("exit", () => this.endCapture(subscriber));
      this.arecordProcess.once("error", () => this.endCapture(subscriber));
    }

    // subscriber data handler, lines 242-245
    this.arecordProcess.stdout.on("data", (chunk: Buffer) => {
      if (!this.isCompleted) subscriber.next(chunk);
      this.emitVadFrames(chunk, (frame) => this.framesSubject.next(frame));
    });

The session state records the `isCompleted` flag, the Framer remainder
`audioBuffer`, the frames pushed into `framesSubject`, the raw chunks
forwarded to the subscriber via `subscriber.next`, and how many times
`subscriber.complete()` and `subscriber.error()` were invoked.  The
`kill()` call is an external side effect whose failure is caught and
ignored, so it does not touch any observable state; nothing in
`MicrophoneObservable` ever calls `subscriber.error`. -/

structure SessionState where
  isCompleted : Bool
  audioBuffer : List Nat
  vadFrames : List (List Nat)
  forwarded : List (List Nat)
  completes : Nat
  errors : Nat
deriving DecidableEq

/-- The state at subscription time: not completed, empty Framer
remainder, nothing forwarded, no completion or error signalled. -/
def initialSession : SessionState :=
  { isCompleted := false, audioBuffer := [], vadFrames := [], forwarded := [],
    completes := 0, errors := 0 }

/-- Embedding of `MicrophoneObservable.endCapture`: a no-op when already completed,
otherwise mark completed and deliver `subscriber.complete()` once. -/
def endCapture (s : SessionState) : SessionState :=
  if s.isCompleted then s
  else { s with isCompleted := true, completes := s.completes + 1 }

/-- The events a capture session reacts to: a stdout data chunk, the
three process lifecycle events wired by `attachProcessLifecycle`, and
the end observable firing (which calls `endCapture` through the
`end$.subscribe` callback, line 240). -/
inductive MicEvent where
  | data (chunk : List Nat)
  | stdoutEnd
  | procExit
  | procError
  | endSignal
deriving DecidableEq

/-- Events that invoke the `endCapture` teardown path. -/
def isTeardown : MicEvent → Bool
  | MicEvent.data _ => false
  | _ => true

/-- One step of the event handlers: a data chunk is forwarded only while
not completed, but is always pushed through the Framer into the VAD
subject; every other event runs `endCapture`. -/
def stepMic (s : SessionState) : MicEvent → SessionState
  | MicEvent.data chunk =>
    let s1 := if s.isCompleted then s else { s with forwarded := s.forwarded ++ [chunk] }
    let p := emitVadFrames s1.audioBuffer chunk
    { s1 with audioBuffer := p.2, vadFrames := s1.vadFrames ++ p.1 }
  | _ => endCapture s

/-- Run a capture session over a list of events in arrival order. -/
def runMic (s : SessionState) (evs : List MicEvent) : SessionState :=
  evs.foldl stepMic s

/-- The single-fire invariant: the number of delivered completion
signals is determined by the `isCompleted` flag. -/
def completesInv (s : SessionState) : Prop :=
  s.completes = if s.isCompleted then 1 else 0

/-! ### listen(): skip of leading audio versus the VAD path

The TypeScript source (src/src/speech/listen.ts, lines 56-67):

    const ignoreMs = Number(process.env.LISTEN_IGNORE_MS ?? 250);
    const micStream$ = new MicrophoneObservable(options).pipe(
      skipUntil(timer(ignoreMs)),
      tap((chunk) => {
        stream.write({ audioContent: chunk });
      }),
      ...
    );

`skipUntil(timer(ignoreMs))` drops the chunks the microphone observable
emits before the timer fires at `ignoreMs`; only chunks arriving at or
after `ignoreMs` reach the `tap` that writes them to the recognizer
stream.  The framing and VAD classification happen inside the
microphone observable itself, in its stdout data handler
(src/unnamed/part_002, lines 242-245), upstream of the `skipUntil`
operator, so every chunk is framed regardless of the skip. -/

/-- Source default for the `LISTEN_IGNORE_MS` environment variable. -/
def LISTEN_IGNORE_MS : Nat := 250

/-- A raw chunk emitted by the microphone observable, with its arrival
time in milliseconds since subscription. -/
structure TimedChunk where
  t : Nat
  bytes : List Nat
deriving DecidableEq

/-- State of one `listen()` call: the Framer remainder, the frames fed
to the VAD and endpoint machine, and the bytes written to the
recognizer stream. -/
structure ListenState where
  audioBuffer : List Nat
  vadFrames : List (List Nat)
  recognized : List Nat
deriving DecidableEq

/-- Processing of one microphone chunk during `listen()`: the chunk goes
through `skipUntil(timer(ignoreMs))` into the recognizer write only
when it arrives at or after `ignoreMs`, and it is always pushed through
the Framer for VAD classification. -/
def listenStep (ignoreMs : Nat) (s : ListenState) (e : TimedChunk) : ListenState :=
  { audioBuffer := (emitVadFrames s.audioBuffer e.bytes).2,
    vadFrames := s.vadFrames ++ (emitVadFrames s.audioBuffer e.bytes).1,
    recognized := if ignoreMs ≤ e.t then s.recognized ++ e.bytes else s.recognized }

/-- Run `listen()` over the microphone chunks in arrival order. -/
def runListen (ignoreMs : Nat) (evs : List TimedChunk) : ListenState :=
  evs.foldl (listenStep ignoreMs) { audioBuffer := [], vadFrames := [], recognized := [] }

/-! ### Playback writer: SpeakerStream.toStereo and SpeakerStream._write

The TypeScript source (src/src/io/hinge.ts, lines 111-142; the same
loop appears in ALSAAudioStream._write, src/src/speech/audio-stream.ts,
lines 35-58):

    private toStereo(monoBuffer: Buffer): Buffer {
      const stereoBuffer = Buffer.allocUnsafe(monoBuffer.length * 2);
      for (let i = 0; i < monoBuffer.length; i += 2) {
        const sample = monoBuffer.readInt16LE(i);
        const outIndex = i * 2;
        stereoBuffer.writeInt16LE(sample, outIndex);
        stereoBuffer.writeInt16LE(sample, outIndex + 2);
      }
      return stereoBuffer;
    }

    _write(chunk, encoding, callback): void {
      if (this.isClosed || !this.aplayProcess || !this.aplayProcess.stdin) {
        callback(new Error("aplay process not available"));
        return;
      }
      const monoBuffer = Buffer.isBuffer(chunk) ? chunk : Buffer.from(chunk);
      const stereoBuffer = this.toStereo(monoBuffer);
      this.aplayProcess.stdin.write(stereoBuffer, callback);
    }

`Buffer.readInt16LE` reads two bytes as a signed little-endian 16-bit
integer and throws `ERR_OUT_OF_RANGE` when fewer than two bytes remain;
on a buffer of odd length the final loop iteration therefore throws,
before anything is written to the process stdin.  `toStereo` is
modelled as returning `none` in that case.  `writeInt16LE` stores the
low byte first. -/

/-- Embedding of `Buffer.readInt16LE`: the read of the two bytes at the read offset: the
little-endian unsigned value, reinterpreted as a signed 16-bit value. -/
def readInt16LE (b0 b1 : Nat) : Int :=
  if b0 + 256 * b1 < 32768 then ((b0 + 256 * b1 : Nat) : Int)
  else ((b0 + 256 * b1 : Nat) : Int) - 65536

/-- Embedding of `Buffer.writeInt16LE`: the two bytes stored for a signed 16-bit
value, low byte first (the value is reduced modulo 2^16). -/
def writeInt16LE (v : Int) : Nat × Nat :=
  ((v % 65536).toNat % 256, (v % 65536).toNat / 256)

/-- Embedding of `SpeakerStream.toStereo`: read each 16-bit mono sample and write it
at both channel positions of the output, left then right, in order.
`none` models the `ERR_OUT_OF_RANGE` throw on an odd-length buffer. -/
def toStereo : List Nat → Option (List Nat)
  | [] => some []
  | [_] => none
  | b0 :: b1 :: rest =>
    (toStereo rest).map (fun r =>
      (writeInt16LE (readInt16LE b0 b1)).1 :: (writeInt16LE (readInt16LE b0 b1)).2 ::
        (writeInt16LE (readInt16LE b0 b1)).1 :: (writeInt16LE (readInt16LE b0 b1)).2 :: r)

/-- The 16-bit little-endian sample at sample index `k` of a byte
buffer (bytes `2k` and `2k+1`), if both bytes exist. -/
def sampleAt (buf : List Nat) (k : Nat) : Option Int :=
  match buf[2 * k]?, buf[2 * k + 1]? with
  | some b0, some b1 => some (readInt16LE b0 b1)
  | _, _ => none

/-- Result of one `SpeakerStream._write` call: either an error is
signalled (synchronously, with nothing forwarded to the process), or
the given stereo bytes are forwarded to the aplay stdin. -/
inductive WriteOutcome where
  | errored
  | wrote (stereo : List Nat)
deriving DecidableEq

/-- Embedding of `SpeakerStream._write`: errors when the stream is closed; otherwise
converts to stereo and forwards the result, erroring if the conversion
throws. -/
def speakerWrite (isClosed : Bool) (chunk : List Nat) : WriteOutcome :=
  if isClosed then WriteOutcome.errored
  else
    match toStereo chunk with
    | none => WriteOutcome.errored
    | some st => WriteOutcome.wrote st

/-- Follows the words of the specification for the round-trip property:
`toMono` simply selects one channel, here the left one, i.e. the first
16-bit sample of each stereo sample pair. -/
def toMono : List Nat → List Nat
  | b0 :: b1 :: _ :: _ :: rest => b0 :: b1 :: toMono rest
  | _ => []

/-! ### Theorems -/

theorem sliceFrames_join (n : Nat) (buf : List Nat) :
    (sliceFrames n buf).1.flatten ++ (sliceFrames n buf).2 = buf := by
  rw [sliceFrames]
  by_cases h : 0 < n ∧ n ≤ buf.length
  · rw [dif_pos h]
    have ih := sliceFrames_join n (buf.drop n)
    simp only [List.flatten_cons]
    rw [List.append_assoc, ih]
    exact List.take_append_drop n buf
  · rw [dif_neg h]
    simp
termination_by buf.length
decreasing_by
  simp only [List.length_drop]
  omega

theorem sliceFrames_frame_length (n : Nat) (buf : List Nat) :
    ∀ f ∈ (sliceFrames n buf).1, f.length = n := by
  rw [sliceFrames]
  by_cases h : 0 < n ∧ n ≤ buf.length
  · rw [dif_pos h]
    have ih := sliceFrames_frame_length n (buf.drop n)
    intro f hf
    rcases List.mem_cons.mp hf with hf | hf
    · subst hf
      simp [List.length_take]
      omega
    · exact ih f hf
  · rw [dif_neg h]
    intro f hf
    simp at hf
termination_by buf.length
decreasing_by
  simp only [List.length_drop]
  omega

theorem sliceFrames_rem_lt (n : Nat) (hn : 0 < n) (buf : List Nat) :
    (sliceFrames n buf).2.length < n := by
  rw [sliceFrames]
  by_cases h : 0 < n ∧ n ≤ buf.length
  · rw [dif_pos h]
    exact sliceFrames_rem_lt n hn (buf.drop n)
  · rw [dif_neg h]
    simp only [not_and, not_le] at h
    exact h hn
termination_by buf.length
decreasing_by
  simp only [List.length_drop]
  omega

theorem sliceFrames_of_short (n : Nat) (buf : List Nat) (h : buf.length < n) :
    sliceFrames n buf = ([], buf) := by
  rw [sliceFrames, dif_neg]
  intro hc
  omega

/-- Slicing a buffer that starts with a run of already full frames
peels off exactly those frames and continues with the rest. -/
theorem sliceFrames_prepend_frames (n : Nat) (hn : 0 < n) (fs : List (List Nat))
    (rest : List Nat) (hfs : ∀ f ∈ fs, f.length = n) :
    sliceFrames n (fs.flatten ++ rest) = (fs ++ (sliceFrames n rest).1, (sliceFrames n rest).2) := by
  induction fs with
  | nil => simp
  | cons f fs ih =>
    have hf : f.length = n := hfs f (List.mem_cons_self f fs)
    have hjoin : (f :: fs).flatten ++ rest = f ++ (fs.flatten ++ rest) := by
      simp [List.append_assoc]
    rw [hjoin, sliceFrames, dif_pos]
    · have htake : (f ++ (fs.flatten ++ rest)).take n = f := List.take_left' hf
      have hdrop : (f ++ (fs.flatten ++ rest)).drop n = fs.flatten ++ rest := List.drop_left' hf
      rw [htake, hdrop, ih fun g hg => hfs g (List.mem_cons_of_mem f hg)]
      simp
    · constructor
      · exact hn
      · simp [List.length_append, ← hf]

/-- Compositionality of the slicing loop over concatenation: slicing
`buf ++ extra` first yields the frames of `buf`, then the frames of the
remainder of `buf` followed by `extra`. -/
theorem sliceFrames_append (n : Nat) (hn : 0 < n) (buf extra : List Nat) :
    sliceFrames n (buf ++ extra) =
      ((sliceFrames n buf).1 ++ (sliceFrames n ((sliceFrames n buf).2 ++ extra)).1,
       (sliceFrames n ((sliceFrames n buf).2 ++ extra)).2) := by
  conv_lhs => rw [← sliceFrames_join n buf, List.append_assoc]
  exact sliceFrames_prepend_frames n hn (sliceFrames n buf).1
    ((sliceFrames n buf).2 ++ extra) (sliceFrames_frame_length n buf)

/-- Pushing chunks one at a time equals pushing their concatenation in a
single call, as long as the starting remainder is smaller than a frame
(which is invariant across pushes, and true of the empty start state). -/
theorem processChunks_eq_one_push (chunks : List (List Nat)) (audioBuffer : List Nat)
    (h : audioBuffer.length < VAD_FRAME_BYTES) :
    processChunks audioBuffer chunks = emitVadFrames audioBuffer chunks.flatten := by
  induction chunks generalizing audioBuffer with
  | nil =>
    simp only [processChunks, emitVadFrames, List.flatten_nil, List.append_nil]
    rw [sliceFrames_of_short VAD_FRAME_BYTES audioBuffer h]
  | cons c cs ih =>
    have hpos : 0 < VAD_FRAME_BYTES := by decide
    have hrem := sliceFrames_rem_lt VAD_FRAME_BYTES hpos (audioBuffer ++ c)
    simp only [processChunks, emitVadFrames, List.flatten_cons]
    rw [ih (sliceFrames VAD_FRAME_BYTES (audioBuffer ++ c)).2 hrem]
    simp only [emitVadFrames]
    rw [← List.append_assoc, sliceFrames_append VAD_FRAME_BYTES hpos (audioBuffer ++ c) cs.flatten]

/-- C3: every frame emitted by the Framer has length exactly
`sampleRate * frameDurationMs / 1000 * 2` = 640 bytes, frames are
emitted in input byte order with nothing dropped or duplicated: the
concatenation of the emitted frames followed by the final remainder is
exactly the concatenation of all pushed bytes. -/
theorem framer_frames_exact (chunks : List (List Nat)) :
    (∀ f ∈ (processChunks [] chunks).1, f.length = VAD_FRAME_BYTES) ∧
    VAD_FRAME_BYTES = SAMPLE_RATE * FRAME_DURATION_MS / 1000 * 2 ∧
    (processChunks [] chunks).1.flatten ++ (processChunks [] chunks).2 = chunks.flatten := by
  have hshort : ([] : List Nat).length < VAD_FRAME_BYTES := by decide
  rw [processChunks_eq_one_push chunks [] hshort]
  refine ⟨?_, by decide, ?_⟩
  · simpa using sliceFrames_frame_length VAD_FRAME_BYTES ([] ++ chunks.flatten)
  · simpa using sliceFrames_join VAD_FRAME_BYTES ([] ++ chunks.flatten)

/-- C4: pushing a byte sequence through the Framer split into arbitrary
chunks yields exactly the same ordered frames and the same final
remainder as pushing the whole sequence in a single call. -/
theorem framer_split_invariant (chunks : List (List Nat)) :
    processChunks [] chunks = emitVadFrames [] chunks.flatten :=
  processChunks_eq_one_push chunks [] (by decide)

/-- C5: if no frame is classified as speech before `initialSilenceTimeout`
elapses, the machine emits the `initialSilence` terminal decision at
exactly `maxInitialSilenceMs`.  The pipeline ends in `take(1)`, so this
single `Option` value is the one and only terminal emission: no other
terminal decision can be reached and the decision fires exactly once. -/
theorem initial_silence_decision (cfg : MicrophoneConfig) (frames : List ClassifiedFrame)
    (h : ∀ f ∈ frames, f.isSpeech = true → cfg.maxInitialSilenceMs ≤ f.t) :
    endObservableFire cfg frames = some (EndReason.initialSilence, cfg.maxInitialSilenceMs) := by
  unfold endObservableFire
  cases hs : speechTimes frames with
  | nil => rfl
  | cons s1 rest =>
    have hmem : s1 ∈ speechTimes frames := by
      rw [hs]
      exact List.mem_cons_self s1 rest
    unfold speechTimes at hmem
    rcases List.mem_map.mp hmem with ⟨f, hf, hft⟩
    rcases List.mem_filter.mp hf with ⟨hfmem, hfspeech⟩
    have hle : cfg.maxInitialSilenceMs ≤ s1 := by
      rw [← hft]
      exact h f hfmem (by simpa using hfspeech)
    show (if s1 < cfg.maxInitialSilenceMs then
        Option.map (fun t => (EndReason.trailingSilence, t))
          (debounceFire cfg.maxTrailingSilenceMs rest)
      else some (EndReason.initialSilence, cfg.maxInitialSilenceMs)) =
      some (EndReason.initialSilence, cfg.maxInitialSilenceMs)
    rw [if_neg (by omega)]

/-- Witness for `initial_silence_decision`: default config, a silence
frame at 0 ms and a speech frame arriving only at 2500 ms. -/
theorem initial_silence_decision_witness :
    endObservableFire DEFAULT_CONFIG
      [{ t := 0, isSpeech := false }, { t := 2500, isSpeech := true }] =
      some (EndReason.initialSilence, 2000) :=
  initial_silence_decision DEFAULT_CONFIG
    [{ t := 0, isSpeech := false }, { t := 2500, isSpeech := true }] (by decide)

/-- C1 (evaluation at the failing input): with the default timeouts, a
session whose audio contains exactly one speech frame at t = 100 ms
followed only by silence frames never produces an end event at all:
`endOnTrailingSilence$` debounces a stream that misses the single
speech frame, so it never starts the trailing timer, while the
initial-silence timer was cancelled by the first speech frame.  The
claim (and the class doc comment at src/unnamed/part_002, lines
127-135) require the session to resolve `completed-trailing-silence`
at 900 ms. -/
theorem single_speech_frame_never_ends :
    endObservableFire DEFAULT_CONFIG
      [{ t := 100, isSpeech := true }, { t := 120, isSpeech := false },
       { t := 500, isSpeech := false }, { t := 900, isSpeech := false },
       { t := 1000, isSpeech := false }] = none := by
  decide

theorem stepMic_errors (s : SessionState) (e : MicEvent) : (stepMic s e).errors = s.errors := by
  cases e <;> simp [stepMic, endCapture] <;> split <;> rfl

theorem runMic_errors (s : SessionState) (evs : List MicEvent) :
    (runMic s evs).errors = s.errors := by
  induction evs generalizing s with
  | nil => rfl
  | cons e evs ih =>
    simp only [runMic, List.foldl_cons] at ih ⊢
    rw [ih, stepMic_errors]

theorem stepMic_isCompleted_of (s : SessionState) (e : MicEvent) (h : s.isCompleted = true) :
    (stepMic s e).isCompleted = true := by
  cases e <;> simp [stepMic, endCapture, h]

theorem runMic_isCompleted_of (s : SessionState) (evs : List MicEvent)
    (h : s.isCompleted = true) : (runMic s evs).isCompleted = true := by
  induction evs generalizing s with
  | nil => exact h
  | cons e evs ih =>
    simp only [runMic, List.foldl_cons] at ih ⊢
    exact ih (stepMic s e) (stepMic_isCompleted_of s e h)

theorem stepMic_isCompleted_of_teardown (s : SessionState) (e : MicEvent)
    (h : isTeardown e = true) : (stepMic s e).isCompleted = true := by
  cases e
  · simp [isTeardown] at h
  all_goals
    simp only [stepMic, endCapture]
    split
    · assumption
    · rfl

theorem stepMic_completesInv (s : SessionState) (e : MicEvent) (h : completesInv s) :
    completesInv (stepMic s e) := by
  unfold completesInv at h ⊢
  cases e <;> simp only [stepMic, endCapture] <;> split <;> simp_all

theorem runMic_completesInv (s : SessionState) (evs : List MicEvent) (h : completesInv s) :
    completesInv (runMic s evs) := by
  induction evs generalizing s with
  | nil => exact h
  | cons e evs ih =>
    simp only [runMic, List.foldl_cons] at ih ⊢
    exact ih (stepMic s e) (stepMic_completesInv s e h)

theorem runMic_isCompleted_of_mem (s : SessionState) (evs : List MicEvent) (e : MicEvent)
    (hmem : e ∈ evs) (h : isTeardown e = true) : (runMic s evs).isCompleted = true := by
  induction evs generalizing s with
  | nil => simp at hmem
  | cons e0 evs ih =>
    simp only [runMic, List.foldl_cons] at ih ⊢
    rcases List.mem_cons.mp hmem with heq | hmem
    · subst heq
      exact runMic_isCompleted_of (stepMic s e) evs (stepMic_isCompleted_of_teardown s e h)
    · exact ih (stepMic s e0) hmem

theorem endCapture_of_completed (s : SessionState) (h : s.isCompleted = true) :
    endCapture s = s := by
  simp [endCapture, h]

/-- C2 (amended): if the recording process reports `error` or `exit`, or
its stdout ends, before a terminal decision, the session runs the same
idempotent `endCapture` teardown and signals a NORMAL completion to the
caller: `subscriber.complete()` is delivered exactly once and
`subscriber.error` is never invoked, regardless of whatever other
events surround it.  The outcome is not propagated as a failure. -/
theorem process_end_completes_normally (evs : List MicEvent) (e : MicEvent)
    (hmem : e ∈ evs)
    (hlife : e = MicEvent.procError ∨ e = MicEvent.procExit ∨ e = MicEvent.stdoutEnd) :
    (runMic initialSession evs).completes = 1 ∧ (runMic initialSession evs).errors = 0 := by
  have hteardown : isTeardown e = true := by
    rcases hlife with rfl | rfl | rfl <;> rfl
  have hcomp : (runMic initialSession evs).isCompleted = true :=
    runMic_isCompleted_of_mem initialSession evs e hmem hteardown
  have hinv : completesInv (runMic initialSession evs) :=
    runMic_completesInv initialSession evs (by simp [completesInv, initialSession])
  unfold completesInv at hinv
  rw [hcomp] at hinv
  simp only [if_true] at hinv
  exact ⟨hinv, runMic_errors initialSession evs⟩

/-- Witness for `process_end_completes_normally`: a data chunk followed
by a process error. -/
theorem process_end_completes_normally_witness :
    (runMic initialSession [MicEvent.data [1, 2], MicEvent.procError]).completes = 1 ∧
    (runMic initialSession [MicEvent.data [1, 2], MicEvent.procError]).errors = 0 :=
  process_end_completes_normally [MicEvent.data [1, 2], MicEvent.procError]
    MicEvent.procError (by decide) (Or.inl rfl)

/-- C2 (counterexample to the claim as stated): a session in which the
recording process reports an error before any terminal decision does
NOT propagate a failure to the caller: no error signal is ever
delivered (`errors = 0`) and the stream is completed normally instead
(`completes = 1`), because `endCapture` invokes `subscriber.complete()`
and nothing in the class ever invokes `subscriber.error`. -/
theorem process_error_not_a_failure :
    (runMic initialSession [MicEvent.procError]).errors = 0 ∧
    (runMic initialSession [MicEvent.procError]).completes = 1 := by
  decide

/-- C6: teardown is idempotent.  For any nonempty sequence of teardown
triggers (end-observable fire, process exit or error, stdout end, in
any combination and order), exactly one completion signal is delivered,
no error is raised, and one more trigger on top of the result is a
strict no-op on the session state. -/
theorem teardown_idempotent (evs : List MicEvent) (e : MicEvent)
    (hne : evs ≠ []) (hall : ∀ x ∈ evs, isTeardown x = true) (he : isTeardown e = true) :
    (runMic initialSession evs).completes = 1 ∧
    (runMic initialSession evs).errors = 0 ∧
    stepMic (runMic initialSession evs) e = runMic initialSession evs := by
  obtain ⟨e0, rest, rfl⟩ : ∃ x xs, evs = x :: xs := by
    cases evs with
    | nil => exact absurd rfl hne
    | cons x xs => exact ⟨x, xs, rfl⟩
  have hmem : e0 ∈ e0 :: rest := List.mem_cons_self e0 rest
  set evs := e0 :: rest with hevs
  have hcomp : (runMic initialSession evs).isCompleted = true :=
    runMic_isCompleted_of_mem initialSession evs e0 hmem (hall e0 hmem)
  have hinv : completesInv (runMic initialSession evs) :=
    runMic_completesInv initialSession evs (by simp [completesInv, initialSession])
  unfold completesInv at hinv
  rw [hcomp] at hinv
  simp only [if_true] at hinv
  refine ⟨hinv, runMic_errors initialSession evs, ?_⟩
  cases e
  · simp [isTeardown] at he
  all_goals
    simp only [stepMic]
    exact endCapture_of_completed (runMic initialSession evs) hcomp

/-- Witness for `teardown_idempotent`: the end observable fires and the
process exit races in right after; a further error event is a no-op. -/
theorem teardown_idempotent_witness :
    (runMic initialSession [MicEvent.endSignal, MicEvent.procExit]).completes = 1 ∧
    (runMic initialSession [MicEvent.endSignal, MicEvent.procExit]).errors = 0 ∧
    stepMic (runMic initialSession [MicEvent.endSignal, MicEvent.procExit]) MicEvent.procError =
      runMic initialSession [MicEvent.endSignal, MicEvent.procExit] :=
  teardown_idempotent [MicEvent.endSignal, MicEvent.procExit] MicEvent.procError
    (by decide) (by decide) (by decide)

theorem listen_foldl_char (ignoreMs : Nat) (evs : List TimedChunk) (s : ListenState)
    (h : s.audioBuffer.length < VAD_FRAME_BYTES) :
    evs.foldl (listenStep ignoreMs) s =
      { audioBuffer := (emitVadFrames s.audioBuffer ((evs.map (fun e => e.bytes)).flatten)).2,
        vadFrames :=
          s.vadFrames ++ (emitVadFrames s.audioBuffer ((evs.map (fun e => e.bytes)).flatten)).1,
        recognized :=
          s.recognized ++
            ((evs.filter (fun e => decide (ignoreMs ≤ e.t))).map (fun e => e.bytes)).flatten } := by
  induction evs generalizing s with
  | nil =>
    simp only [List.foldl_nil, List.map_nil, List.flatten_nil, List.filter_nil,
      List.append_nil, emitVadFrames]
    rw [sliceFrames_of_short VAD_FRAME_BYTES s.audioBuffer h]
    simp
  | cons e evs ih =>
    have hpos : 0 < VAD_FRAME_BYTES := by decide
    have hrem := sliceFrames_rem_lt VAD_FRAME_BYTES hpos (s.audioBuffer ++ e.bytes)
    simp only [List.foldl_cons]
    rw [ih (listenStep ignoreMs s e) hrem]
    simp only [listenStep, emitVadFrames, List.map_cons, List.flatten_cons]
    rw [← List.append_assoc,
      sliceFrames_append VAD_FRAME_BYTES hpos (s.audioBuffer ++ e.bytes)
        ((evs.map (fun e => e.bytes)).flatten)]
    simp only [List.filter_cons]
    by_cases hskip : ignoreMs ≤ e.t
    · simp [hskip, List.append_assoc]
    · simp [hskip]

/-- C10: during `listen()`, chunks arriving before `ignoreMs` are
dropped from the recognizer path (the recognizer receives exactly the
bytes of the chunks arriving at or after `ignoreMs`), while the Framer
and VAD path processes every byte of every chunk: the frames driving
the endpoint decisions are those of the full audio, independently of
`ignoreMs`, leading skip included. -/
theorem listen_skips_only_recognizer_path (ignoreMs : Nat) (evs : List TimedChunk) :
    (runListen ignoreMs evs).recognized =
      ((evs.filter (fun e => decide (ignoreMs ≤ e.t))).map (fun e => e.bytes)).flatten ∧
    (runListen ignoreMs evs).vadFrames =
      (emitVadFrames [] ((evs.map (fun e => e.bytes)).flatten)).1 ∧
    (runListen ignoreMs evs).audioBuffer =
      (emitVadFrames [] ((evs.map (fun e => e.bytes)).flatten)).2 := by
  unfold runListen
  rw [listen_foldl_char ignoreMs evs _ (by decide)]
  exact ⟨by simp, by simp, by simp⟩

theorem writeInt16LE_readInt16LE (b0 b1 : Nat) (h0 : b0 < 256) (h1 : b1 < 256) :
    writeInt16LE (readInt16LE b0 b1) = (b0, b1) := by
  unfold writeInt16LE readInt16LE
  split <;> simp only [Prod.mk.injEq] <;> constructor <;> omega

theorem writeInt16LE_fst_lt (v : Int) : (writeInt16LE v).1 < 256 := by
  unfold writeInt16LE
  omega

theorem writeInt16LE_snd_lt (v : Int) : (writeInt16LE v).2 < 256 := by
  unfold writeInt16LE
  omega

theorem toStereo_isSome_of_even (mono : List Nat) (h : mono.length % 2 = 0) :
    (toStereo mono).isSome = true := by
  induction mono using toStereo.induct with
  | case1 => rfl
  | case2 b => simp at h
  | case3 b0 b1 rest ih =>
    have hrest : rest.length % 2 = 0 := by
      simp only [List.length_cons] at h
      omega
    rcases Option.isSome_iff_exists.mp (ih hrest) with ⟨r, hr⟩
    simp [toStereo, hr]

theorem toStereo_length (mono st : List Nat) (h : toStereo mono = some st) :
    st.length = 2 * mono.length := by
  induction mono using toStereo.induct generalizing st with
  | case1 =>
    simp only [toStereo, Option.some.injEq] at h
    simp [← h]
  | case2 b => simp [toStereo] at h
  | case3 b0 b1 rest ih =>
    simp only [toStereo, Option.map_eq_some'] at h
    rcases h with ⟨r, hr, hst⟩
    have hlen := ih r hr
    simp only [← hst, List.length_cons, hlen]
    omega

theorem toStereo_odd (mono : List Nat) (h : mono.length % 2 = 1) :
    toStereo mono = none := by
  induction mono using toStereo.induct with
  | case1 => simp at h
  | case2 b => rfl
  | case3 b0 b1 rest ih =>
    have hrest : rest.length % 2 = 1 := by
      simp only [List.length_cons] at h
      omega
    simp [toStereo, ih hrest]

theorem sampleAt_cons2 (a b : Nat) (l : List Nat) (k : Nat) :
    sampleAt (a :: b :: l) (k + 1) = sampleAt l k := by
  unfold sampleAt
  have h1 : 2 * (k + 1) = (2 * k + 1) + 1 := by ring
  rw [h1]
  simp [List.getElem?_cons_succ]

theorem toStereo_sample (mono st : List Nat) (k : Nat)
    (hb : ∀ b ∈ mono, b < 256) (h : toStereo mono = some st) :
    sampleAt st (2 * k) = sampleAt mono k ∧
    sampleAt st (2 * k + 1) = sampleAt mono k := by
  induction mono using toStereo.induct generalizing st k with
  | case1 =>
    simp only [toStereo, Option.some.injEq] at h
    simp [← h, sampleAt]
  | case2 b => simp [toStereo] at h
  | case3 b0 b1 rest ih =>
    simp only [toStereo, Option.map_eq_some'] at h
    rcases h with ⟨r, hr, hst⟩
    have hw : writeInt16LE (readInt16LE b0 b1) = (b0, b1) :=
      writeInt16LE_readInt16LE b0 b1 (hb b0 (by simp)) (hb b1 (by simp))
    rw [hw] at hst
    cases k with
    | zero =>
      simp only [← hst]
      constructor
      · simp [sampleAt]
      · simp [sampleAt]
    | succ k =>
      have hrec := ih r k (fun b hbm => hb b (by simp [hbm])) hr
      have hst4 : st = b0 :: b1 :: b0 :: b1 :: r := hst.symm
      rw [hst4]
      have he : 2 * (k + 1) = (2 * k + 1) + 1 := by ring
      constructor
      · rw [he, sampleAt_cons2, sampleAt_cons2, sampleAt_cons2 b0 b1 rest k]
        exact hrec.1
      · rw [he]
        have he2 : (2 * k + 1) + 1 + 1 = (2 * k + 1 + 1) + 1 := by ring
        rw [he2, sampleAt_cons2, sampleAt_cons2, sampleAt_cons2 b0 b1 rest k]
        exact hrec.2

/-- C7: a mono buffer of even length, with the writer open, is accepted
and forwarded: the produced stereo buffer has exactly twice the byte
length, and the 16-bit little-endian sample at each input sample index
`k` appears unchanged at both channel positions `2k` (left) and
`2k + 1` (right) of the output, so sample order and count are
preserved. -/
theorem mono_write_duplicates_to_stereo (mono : List Nat) (k : Nat)
    (heven : mono.length % 2 = 0) (hb : ∀ b ∈ mono, b < 256) :
    speakerWrite false mono = WriteOutcome.wrote ((toStereo mono).getD []) ∧
    ((toStereo mono).getD []).length = 2 * mono.length ∧
    sampleAt ((toStereo mono).getD []) (2 * k) = sampleAt mono k ∧
    sampleAt ((toStereo mono).getD []) (2 * k + 1) = sampleAt mono k := by
  rcases Option.isSome_iff_exists.mp (toStereo_isSome_of_even mono heven) with ⟨st, hst⟩
  rw [hst]
  have hsample := toStereo_sample mono st k hb hst
  exact ⟨by simp [speakerWrite, hst], by simpa using toStereo_length mono st hst,
    by simpa using hsample.1, by simpa using hsample.2⟩

/-- Witness for `mono_write_duplicates_to_stereo`: two samples 1 and
32767 (bytes [1, 0, 255, 127]), checked at sample index 1. -/
theorem mono_write_duplicates_to_stereo_witness :
    speakerWrite false [1, 0, 255, 127] =
      WriteOutcome.wrote ((toStereo [1, 0, 255, 127]).getD []) ∧
    ((toStereo [1, 0, 255, 127]).getD []).length = 2 * 4 ∧
    sampleAt ((toStereo [1, 0, 255, 127]).getD []) (2 * 1) = sampleAt [1, 0, 255, 127] 1 ∧
    sampleAt ((toStereo [1, 0, 255, 127]).getD []) (2 * 1 + 1) = sampleAt [1, 0, 255, 127] 1 :=
  mono_write_duplicates_to_stereo [1, 0, 255, 127] 1 (by decide) (by decide)

/-- C8: a mono buffer of odd length is an `InvalidInput` contract
violation: whatever the stream state, the write errors (the out of
range read throws before the stdin write is reached) and no bytes of
the buffer are forwarded to the aplay process, which only the
`WriteOutcome.wrote` outcome does. -/
theorem odd_mono_write_rejected (isClosed : Bool) (chunk : List Nat)
    (h : chunk.length % 2 = 1) :
    speakerWrite isClosed chunk = WriteOutcome.errored := by
  unfold speakerWrite
  cases isClosed
  · simp [toStereo_odd chunk h]
  · simp

/-- Witness for `odd_mono_write_rejected`: a single-byte buffer on an
open stream. -/
theorem odd_mono_write_rejected_witness :
    speakerWrite false [7] = WriteOutcome.errored :=
  odd_mono_write_rejected false [7] (by decide)

/-- C9 (counterexample to the claim as stated): for the stereo buffer
[1, 0, 2, 0] (one stereo sample pair with left sample 1 and right
sample 2), selecting the left channel and duplicating it back yields
[1, 0, 1, 0], not the original buffer: the round trip fails whenever
the two channels differ. -/
theorem stereo_round_trip_counterexample :
    toStereo (toMono [1, 0, 2, 0]) ≠ some [1, 0, 2, 0] := by
  decide

/-- C9 (amended): the round trip holds for exactly the synthetic stereo
buffers produced by the mono to stereo duplication itself (both
channels equal per sample): for any output of `toStereo`, selecting one
channel with `toMono` and duplicating again reproduces the buffer
per-sample. -/
theorem stereo_round_trip_duplicated (mono st : List Nat) (h : toStereo mono = some st) :
    toStereo (toMono st) = some st := by
  induction mono using toStereo.induct generalizing st with
  | case1 =>
    simp only [toStereo, Option.some.injEq] at h
    rw [← h]
    rfl
  | case2 b => simp [toStereo] at h
  | case3 b0 b1 rest ih =>
    simp only [toStereo, Option.map_eq_some'] at h
    rcases h with ⟨r, hr, hst⟩
    have hrec := ih r hr
    have hw : writeInt16LE
        (readInt16LE (writeInt16LE (readInt16LE b0 b1)).1
          (writeInt16LE (readInt16LE b0 b1)).2) = writeInt16LE (readInt16LE b0 b1) := by
      rw [writeInt16LE_readInt16LE _ _ (writeInt16LE_fst_lt (readInt16LE b0 b1))
        (writeInt16LE_snd_lt (readInt16LE b0 b1))]
    rw [← hst]
    simp only [toMono, toStereo, hrec, Option.map_some', hw]

/-- Witness for `stereo_round_trip_duplicated`: the duplicated buffer
of the single mono sample 1. -/
theorem stereo_round_trip_duplicated_witness :
    toStereo (toMono [1, 0, 1, 0]) = some [1, 0, 1, 0] :=
  stereo_round_trip_duplicated [1, 0] [1, 0, 1, 0] (by decide)

end Playa

